import Mathlib

/-!
Verification development for the TelegramEmojiProducer repository.

Part A embeds the core conversion pipeline (dual-stream encoder, WebM-style
alpha container muxer, size-constrained search).  The Python sources of the
core (webm_alpha_muxer.py, the greedy search and the encoder orchestration)
are not shipped in this checkout, so those definitions are modelled from the
specification, as marked on each definition.

Part B embeds the frontend code that is present in the checkout
(src/app/src/lib/api.ts and src/app/src/app/admin/page.tsx).

Bytes are modelled as natural numbers; byte lists as List Nat.
-/

/-! Definitions. -/

/-- Structural worker for the big-endian base-256 encoding; the first
argument is descent fuel, always instantiated with a bound on the number. -/
def bytesOfNatAux : Nat → Nat → List Nat
  | _, 0 => []
  | 0, _ + 1 => []
  | f + 1, n + 1 => bytesOfNatAux f ((n + 1) / 256) ++ [(n + 1) % 256]

/-- Big-endian base-256 digits of a natural number (empty for 0).  Used by
the muxer model to emit variable-length size fields. -/
def bytesOfNat (n : Nat) : List Nat :=
  bytesOfNatAux n n

/-- Decode big-endian base-256 digits back into a natural number. -/
def natOfBytes (l : List Nat) : Nat :=
  l.foldl (fun acc b => acc * 256 + b) 0

/-- Length-prefixed field: one length byte for the size digits, then the
big-endian size digits, then the payload itself.  Models the EBML rule that
a size field encodes the exact byte length of its element's payload. -/
def withSize (payload : List Nat) : List Nat :=
  (bytesOfNat payload.length).length :: (bytesOfNat payload.length ++ payload)

/-- Read one length-prefixed field, returning the payload and the remaining
bytes, or none when the input is truncated. -/
def readSized (bytes : List Nat) : Option (List Nat × List Nat) :=
  match bytes with
  | [] => none
  | l :: rest =>
    let s := rest.take l
    if hs : s.length = l then
      let n := natOfBytes s
      let body := (rest.drop l).take n
      if hb : body.length = n then some (body, (rest.drop l).drop n)
      else none
    else none

/-- Typed EBML-style element: an id byte followed by the length-prefixed
payload. -/
def element (id : Nat) (payload : List Nat) : List Nat :=
  id :: withSize payload

/-- Read one element with the expected id, returning its payload and the
remaining bytes. -/
def readElement (expectedId : Nat) (bytes : List Nat) :
    Option (List Nat × List Nat) :=
  match bytes with
  | [] => none
  | i :: rest => if i = expectedId then readSized rest else none

/-- One RGBA pixel. -/
structure Pixel where
  r : Nat
  g : Nat
  b : Nat
  a : Nat
  deriving DecidableEq, Repr

/-- Modelled from the spec: a Frame is one RGBA raster plus a presentation
timestamp and a duration (section 3); the decoded-frame type handed over by
the Frame Source is not part of this checkout. -/
structure Frame where
  rgba : List Pixel
  timestamp : Nat
  duration : Nat
  deriving DecidableEq, Repr

/-- Modelled from the spec: EncodeConfig is a scale ratio in (0,1] (kept as
a fraction scaleNum/scaleDen), an ordinal quality and a frame-rate divisor
(section 3); the Python config record is not part of this checkout. -/
structure EncodeConfig where
  scaleNum : Nat
  scaleDen : Nat
  quality : Nat
  frameRateDivisor : Nat
  deriving DecidableEq, Repr

/-- Modelled from the spec: one entry of an EncodedTrack, a compressed frame
payload with keyframe flag and presentation timestamp (section 3). -/
structure EncodedFrame where
  keyframeFlag : Bool
  payloadBytes : List Nat
  timestamp : Nat
  deriving DecidableEq, Repr

/-- Error taxonomy of the encoder, from the spec (section 7). -/
inductive EncodeError where
  | frameSequenceError
  | encodeFailure
  deriving DecidableEq, Repr

/-- Temporal decimation: keep every d-th frame (indices divisible by the
frame-rate divisor). -/
def decimate (d : Nat) (frames : List Frame) : List Frame :=
  (frames.enum.filter (fun p => p.1 % d == 0)).map (fun p => p.2)

/-- The color plane of a frame: RGB bytes with the alpha forced opaque. -/
def colorPlane (f : Frame) : List Nat :=
  f.rgba.flatMap (fun p => [p.r, p.g, p.b, 255])

/-- The alpha plane of a frame: the per-pixel alpha value as a grayscale
luma raster. -/
def alphaPlane (f : Frame) : List Nat :=
  f.rgba.map (fun p => p.a)

/-- Encode one plane of a decimated frame sequence as a track: frame i
keeps frame i's timestamp, and keyframe placement is a function of the
frame index only (frame 0 is the keyframe), so both streams share it. -/
def encodeTrack (codec : List Nat → EncodeConfig → List Nat)
    (plane : Frame → List Nat) (cfg : EncodeConfig) (frames : List Frame) :
    List EncodedFrame :=
  frames.enum.map (fun p =>
    { keyframeFlag := p.1 == 0
      payloadBytes := codec (plane p.2) cfg
      timestamp := p.2.timestamp })

/-- Modelled from the spec: the Dual-Stream Encoder (section 4.1); the
Python encoder orchestration is not part of this checkout.  The external
codec is a parameter (it is an external library per the spec): it maps a
raster plane and the encode configuration to a compressed payload.
Rejects an empty frame sequence, a configuration outside the contract
(divisor 0 or scale outside (0,1]), and — defensively — mismatched frame
counts between the two produced streams. -/
def dualStreamEncode (codec : List Nat → EncodeConfig → List Nat)
    (cfg : EncodeConfig) (frames : List Frame) :
    Except EncodeError (List EncodedFrame × List EncodedFrame) :=
  if frames.isEmpty then .error .frameSequenceError
  else if cfg.frameRateDivisor == 0 || cfg.scaleNum == 0 || cfg.scaleDen == 0
      || cfg.scaleDen < cfg.scaleNum then .error .encodeFailure
  else
    let kept := decimate cfg.frameRateDivisor frames
    let colorTrack := encodeTrack codec colorPlane cfg kept
    let alphaTrack := encodeTrack codec alphaPlane cfg kept
    if colorTrack.length == alphaTrack.length then .ok (colorTrack, alphaTrack)
    else .error .encodeFailure

/-- Element id of the container header. -/
def EBML_HEADER_ID : Nat := 0x1A

/-- Element id of the track descriptor list. -/
def TRACKS_ID : Nat := 0x16

/-- Element id of one track entry. -/
def TRACK_ENTRY_ID : Nat := 0xAE

/-- Element id of one synchronized block. -/
def BLOCK_ID : Nat := 0xA3

/-- Reserved numeric tag identifying the alpha block addition. -/
def ALPHA_BLOCK_ADD_ID : Nat := 1

/-- Codec identifier bytes written in the track entry. -/
def VP9_CODEC_BYTES : List Nat := [86, 95, 86, 80, 57]

/-- Doctype bytes written in the container header. -/
def DOCTYPE_BYTES : List Nat := [119, 101, 98, 109]

/-- Payload of one synchronized block: the timestamp, the keyframe flag
copied from the color track entry, the color payload as primary data, then
the reserved alpha tag and the alpha payload as the tagged addition. -/
def blockPayload (c a : EncodedFrame) : List Nat :=
  withSize (bytesOfNat c.timestamp) ++
    (if c.keyframeFlag then 1 else 0) ::
      (withSize c.payloadBytes ++ ALPHA_BLOCK_ADD_ID :: withSize a.payloadBytes)

/-- One serialized block element carrying a color payload and its attached
alpha payload. -/
def serializeBlock (c a : EncodedFrame) : List Nat :=
  element BLOCK_ID (blockPayload c a)

/-- Serialize the aligned blocks, one per track index, in order. -/
def serializeBlocks (pairs : List (EncodedFrame × EncodedFrame)) : List Nat :=
  pairs.flatMap (fun pr => serializeBlock pr.1 pr.2)

/-- The single track entry: an alpha-bearing flag byte and the codec id. -/
def trackEntryBytes : List Nat :=
  element TRACK_ENTRY_ID (1 :: VP9_CODEC_BYTES)

/-- Mux error taxonomy, from the spec (section 7). -/
inductive MuxError where
  | muxInvariantViolation
  deriving DecidableEq, Repr

/-- Per-index timestamp equality of the two tracks. -/
def tracksTimestampsMatch (colorTrack alphaTrack : List EncodedFrame) : Bool :=
  (colorTrack.zip alphaTrack).all (fun pr => pr.1.timestamp == pr.2.timestamp)

/-- Modelled from the spec: the Container Muxer (section 4.2).  Re-validates
the track length and timestamp invariant at write time; a mismatch is a
fatal construction error and no buffer is produced.  Otherwise emits the
container header, the track descriptors (one alpha-flagged video track) and
one block per index in order. -/
def muxContainer (colorTrack alphaTrack : List EncodedFrame) :
    Except MuxError (List Nat) :=
  if colorTrack.length == alphaTrack.length
      && tracksTimestampsMatch colorTrack alphaTrack then
    .ok (element EBML_HEADER_ID DOCTYPE_BYTES ++
      element TRACKS_ID trackEntryBytes ++
      serializeBlocks (colorTrack.zip alphaTrack))
  else .error .muxInvariantViolation

/-- One re-parsed track descriptor. -/
structure ParsedTrack where
  alphaFlag : Bool
  deriving DecidableEq, Repr

/-- One re-parsed block: primary payload plus the tagged secondary payload. -/
structure ParsedBlock where
  timestamp : Nat
  keyframe : Bool
  primary : List Nat
  addId : Nat
  secondary : List Nat
  deriving DecidableEq, Repr

/-- A re-parsed container: the track list and the ordered block list. -/
structure ParsedContainer where
  tracks : List ParsedTrack
  blocks : List ParsedBlock
  deriving DecidableEq, Repr

/-- Parse the payload of one block element back into its parts. -/
def parseBlockPayload (payload : List Nat) : Option ParsedBlock :=
  match readSized payload with
  | none => none
  | some (tsBytes, r1) =>
    match r1 with
    | [] => none
    | kf :: r2 =>
      match readSized r2 with
      | none => none
      | some (prim, r3) =>
        match r3 with
        | [] => none
        | tag :: r4 =>
          match readSized r4 with
          | none => none
          | some (sec, r5) =>
            if r5.isEmpty then
              some { timestamp := natOfBytes tsBytes, keyframe := kf == 1,
                     primary := prim, addId := tag, secondary := sec }
            else none

/-- Parse the payload of one track entry element. -/
def parseTrackPayload (payload : List Nat) : Option ParsedTrack :=
  match payload with
  | [] => none
  | f :: _ => some { alphaFlag := f == 1 }

/-- Parse a sequence of block elements; the fuel argument bounds the number
of elements and is instantiated with the byte length. -/
def parseBlocksAux : Nat → List Nat → Option (List ParsedBlock)
  | _, [] => some []
  | 0, _ :: _ => none
  | f + 1, b :: bs => do
    let pr ← readElement BLOCK_ID (b :: bs)
    let blk ← parseBlockPayload pr.1
    let more ← parseBlocksAux f pr.2
    pure (blk :: more)

/-- Parse a sequence of track entry elements. -/
def parseTracksAux : Nat → List Nat → Option (List ParsedTrack)
  | _, [] => some []
  | 0, _ :: _ => none
  | f + 1, b :: bs => do
    let pr ← readElement TRACK_ENTRY_ID (b :: bs)
    let t ← parseTrackPayload pr.1
    let more ← parseTracksAux f pr.2
    pure (t :: more)

/-- Re-parse a whole container buffer: header, track list, block list. -/
def parseContainer (bytes : List Nat) : Option ParsedContainer := do
  let h ← readElement EBML_HEADER_ID bytes
  let t ← readElement TRACKS_ID h.2
  let tracks ← parseTracksAux t.1.length t.1
  let blocks ← parseBlocksAux t.2.length t.2
  pure { tracks := tracks, blocks := blocks }

/-- The re-parsed form of one aligned block pair. -/
def parsedOfPair (pr : EncodedFrame × EncodedFrame) : ParsedBlock :=
  { timestamp := pr.1.timestamp, keyframe := pr.1.keyframeFlag,
    primary := pr.1.payloadBytes, addId := ALPHA_BLOCK_ADD_ID,
    secondary := pr.2.payloadBytes }

/-- Modelled from the spec: an evaluated search point (section 3). -/
structure Candidate where
  config : EncodeConfig
  sizeBytes : Nat
  containerBytes : List Nat
  deriving DecidableEq, Repr

/-- Terminal report of the search state machine (section 4.3): Found with
the accepted candidate, Exhausted with the smallest-size candidate observed
across the run, or noCandidates for an empty config space. -/
inductive SearchOutcome where
  | found (c : Candidate)
  | exhausted (best : Candidate)
  | noCandidates
  deriving DecidableEq, Repr

/-- The BudgetNotMet warning flag: set exactly on the Exhausted outcome,
which still carries a best-effort candidate and is not a hard failure. -/
def budgetNotMet : SearchOutcome → Bool
  | .exhausted _ => true
  | _ => false

/-- Best-so-far update: keep the candidate of strictly smaller size. -/
def betterOf (b c : Candidate) : Candidate :=
  if c.sizeBytes < b.sizeBytes then c else b

/-- Fold the freshly evaluated candidate into the best-so-far bookkeeping. -/
def updateBest (best : Option Candidate) (cand : Candidate) : Candidate :=
  match best with
  | none => cand
  | some b => betterOf b cand

/-- The config popped from a non-empty queue by an adaptive jump of the
given stride: the entry jump steps deeper, clamped to the queue end. -/
def poppedConfig (jump : Nat) (x : EncodeConfig) (xs : List EncodeConfig) :
    EncodeConfig :=
  (x :: xs).getD (min jump xs.length) x

/-- The queue left after the pop: the popped entry is removed, everything
that was jumped over stays. -/
def restQueue (jump : Nat) (x : EncodeConfig) (xs : List EncodeConfig) :
    List EncodeConfig :=
  (x :: xs).eraseIdx (min jump xs.length)

/-- One candidate evaluation: run the per-config encode pipeline (encoder
plus muxer, abstracted as the function handed to the search), measure the
exact byte count of the muxed container, and record the search point. -/
def evalCandidate (encode : EncodeConfig → List Nat) (cfg : EncodeConfig) :
    Candidate :=
  { config := cfg, sizeBytes := (encode cfg).length, containerBytes := encode cfg }

/-- Modelled from the spec: the Searching loop (section 4.3).  The queue is
the priority-ordered list of untried configs, highest quality score first.
The jump argument is the index stride of the adaptive jump: the next pop
takes the config jump steps more aggressive, clamped to the queue end;
configs that are jumped over stay in the queue, and every popped config is
removed and never re-enqueued.  The stride function maps the measured size
and the budget to the next stride (larger overshoot, larger skip — kept
abstract per the open question of section 9).  The fuel argument makes the
recursion structural and is instantiated with the queue length, which
bounds the number of pops.  Returns the outcome together with the evaluated
candidates, in evaluation order. -/
def searchGo (encode : EncodeConfig → List Nat) (stride : Nat → Nat → Nat)
    (maxBytes : Nat) :
    Nat → List EncodeConfig → Option Candidate → Nat →
      SearchOutcome × List Candidate
  | _, [], none, _ => (.noCandidates, [])
  | _, [], some b, _ => (.exhausted b, [])
  | 0, _ :: _, none, _ => (.noCandidates, [])
  | 0, _ :: _, some b, _ => (.exhausted b, [])
  | f + 1, x :: xs, best, jump =>
    let cand := evalCandidate encode (poppedConfig jump x xs)
    if cand.sizeBytes ≤ maxBytes then (.found cand, [cand])
    else
      let next := searchGo encode stride maxBytes f (restQueue jump x xs)
        (some (updateBest best cand)) (stride cand.sizeBytes maxBytes)
      (next.1, cand :: next.2)

/-- Modelled from the spec: run the Size-Constrained Search over the full
priority-ordered config queue (section 4.3). -/
def runSearch (encode : EncodeConfig → List Nat) (stride : Nat → Nat → Nat)
    (maxBytes : Nat) (queue : List EncodeConfig) :
    SearchOutcome × List Candidate :=
  searchGo encode stride maxBytes queue.length queue none 0

/-- The outcome of one search run. -/
def searchOutcome (encode : EncodeConfig → List Nat) (stride : Nat → Nat → Nat)
    (maxBytes : Nat) (queue : List EncodeConfig) : SearchOutcome :=
  (runSearch encode stride maxBytes queue).1

/-- The candidates evaluated during one search run, in evaluation order. -/
def evaluatedCandidates (encode : EncodeConfig → List Nat)
    (stride : Nat → Nat → Nat) (maxBytes : Nat) (queue : List EncodeConfig) :
    List Candidate :=
  (runSearch encode stride maxBytes queue).2

/-- Error taxonomy of one candidate evaluation. -/
inductive PipelineError where
  | encodeError (e : EncodeError)
  | muxError (e : MuxError)
  deriving DecidableEq, Repr

/-- Modelled from the spec: one candidate evaluation of the core pipeline,
the Dual-Stream Encoder followed by the Container Muxer (section 2 control
flow). -/
def convertPipeline (codec : List Nat → EncodeConfig → List Nat)
    (cfg : EncodeConfig) (frames : List Frame) :
    Except PipelineError (List Nat) :=
  match dualStreamEncode codec cfg frames with
  | .error e => .error (.encodeError e)
  | .ok (c, a) =>
    match muxContainer c a with
    | .error e => .error (.muxError e)
    | .ok buf => .ok buf

/-- Witness codec: prepends the quality and the scale numerator to the
plane bytes, so payloads depend on both the raster and the config. -/
def wCodec : List Nat → EncodeConfig → List Nat :=
  fun plane cfg => cfg.quality :: cfg.scaleNum :: plane

/-- Witness frame sequence: three timed RGBA frames. -/
def wFrames : List Frame :=
  [{ rgba := [{ r := 1, g := 2, b := 3, a := 4 }], timestamp := 0, duration := 40 },
   { rgba := [{ r := 5, g := 6, b := 7, a := 8 }], timestamp := 40, duration := 40 },
   { rgba := [{ r := 9, g := 10, b := 11, a := 12 }], timestamp := 80, duration := 40 }]

/-- Witness encode configuration: half scale, quality 30, keep every second
frame. -/
def wCfg : EncodeConfig :=
  { scaleNum := 1, scaleDen := 2, quality := 30, frameRateDivisor := 2 }

/-- The track pair the witness encoder run produces. -/
def wEncodedPair : List EncodedFrame × List EncodedFrame :=
  ((dualStreamEncode wCodec wCfg wFrames).toOption).getD ([], [])

/-- The container buffer the witness muxer run produces. -/
def wBuf : List Nat :=
  ((muxContainer wEncodedPair.1 wEncodedPair.2).toOption).getD []

/-- A ten-entry color track for the mismatch witness. -/
def wColorTen : List EncodedFrame :=
  List.replicate 10 { keyframeFlag := true, payloadBytes := [1, 2], timestamp := 0 }

/-- A nine-entry alpha track for the mismatch witness. -/
def wAlphaNine : List EncodedFrame :=
  List.replicate 9 { keyframeFlag := true, payloadBytes := [3], timestamp := 0 }

/-- Witness per-config pipeline for the search: the container is a byte
list whose length equals the config's quality value. -/
def wEncode : EncodeConfig → List Nat :=
  fun cfg => List.replicate cfg.quality 0

/-- Witness config queue in descending quality-score order. -/
def wQueue : List EncodeConfig :=
  [{ scaleNum := 1, scaleDen := 1, quality := 100, frameRateDivisor := 1 },
   { scaleNum := 1, scaleDen := 1, quality := 70, frameRateDivisor := 1 },
   { scaleNum := 1, scaleDen := 2, quality := 50, frameRateDivisor := 2 }]

/-- Witness adaptive-jump stride: the integer overshoot ratio. -/
def wStride : Nat → Nat → Nat :=
  fun size maxB => size / (maxB + 1)

/-- The conversion result record returned by the backend and rendered by the
frontend (src/app/src/lib/api.ts, interface ConversionResult).  Numeric
JSON fields are modelled as naturals; optional fields as Option. -/
structure ConversionResult where
  id : String
  original_filename : Option String
  original_url : Option String
  converted_filename : Option String
  download_url : Option String
  original_size : Nat
  converted_size : Nat
  compression_ratio : Nat
  status : String
  error : Option String
  deriving DecidableEq, Repr

/-- One fetch response as seen by convertFile: the ok flag and the parsed
JSON body, viewed both as a conversion result (used on success) and through
its optional detail field (used on failure); none models an absent or null
detail. -/
structure FetchResponse where
  ok : Bool
  bodyResult : ConversionResult
  bodyDetail : Option String
  deriving DecidableEq, Repr

/-- Embedding of convertFile (src/app/src/lib/api.ts, lines 27 to 42): when
the response is ok the parsed body is returned; otherwise an Error is
thrown whose message is the JavaScript expression
error.detail || 'Conversion failed', that is the detail field when it is
present and truthy (a non-empty string), else the fallback string. -/
def convertFile (resp : FetchResponse) : Except String ConversionResult :=
  if resp.ok then Except.ok resp.bodyResult
  else
    match resp.bodyDetail with
    | some d => if d = "" then Except.error "Conversion failed" else Except.error d
    | none => Except.error "Conversion failed"

/-- A selected file as seen by the batch handler: its name and size. -/
structure SelectedFile where
  name : String
  size : Nat
  deriving DecidableEq, Repr

/-- Embedding of the per-file body of handleConvert's loop
(src/app/src/app/admin/page.tsx, lines 180 to 195): a successful conversion
pushes its result; a rejection pushes a failed entry built from the file
and the caught message via error.message || 'Unknown error'. -/
def convertOneEntry (file : SelectedFile)
    (outcome : Except String ConversionResult) : ConversionResult :=
  match outcome with
  | .ok r => r
  | .error msg =>
    { id := "error-" ++ file.name,
      original_filename := some file.name,
      original_url := none,
      converted_filename := none,
      download_url := none,
      original_size := file.size,
      converted_size := 0,
      compression_ratio := 0,
      status := "failed",
      error := some (if msg = "" then "Unknown error" else msg) }

/-- Embedding of handleConvert's batch loop (src/app/src/app/admin/page.tsx,
lines 172 to 204): every selected file is attempted in order through the
conversion call, and exactly one result entry is pushed per file whether it
succeeds or rejects; a rejection never aborts the loop. -/
def handleConvert (convert : SelectedFile → Except String ConversionResult)
    (files : List SelectedFile) : List ConversionResult :=
  files.map (fun file => convertOneEntry file (convert file))

/-- Embedding of the Saved-percentage cell of the results grid
(src/app/src/app/admin/page.tsx, lines 473 to 478): the division by
original_size is guarded by original_size > 0 and the rendered value is
the literal 0 otherwise.  JavaScript numbers are modelled as rationals;
the toFixed display formatting is not modelled. -/
def savedPercent (r : ConversionResult) : ℚ :=
  if r.original_size > 0 then
    (1 - (r.converted_size : ℚ) / (r.original_size : ℚ)) * 100
  else 0

/-- A concrete successful conversion result used by Part B witnesses. -/
def wOkResult : ConversionResult :=
  { id := "1", original_filename := some "a.gif", original_url := none,
    converted_filename := some "a.webm",
    download_url := some "/api/download/a.webm",
    original_size := 100, converted_size := 50, compression_ratio := 2,
    status := "completed", error := none }

/-- A concrete ok response used by the C9 witness. -/
def wOkResp : FetchResponse :=
  { ok := true, bodyResult := wOkResult, bodyDetail := none }

/-- A concrete failing response whose body carries a present but empty
detail field. -/
def wEmptyDetailResp : FetchResponse :=
  { ok := false, bodyResult := wOkResult, bodyDetail := some "" }

/-- Concrete selected files used by the C8 witness. -/
def wFiles : List SelectedFile :=
  [{ name := "a.gif", size := 100 }, { name := "b.mp4", size := 200 },
   { name := "c.gif", size := 300 }]

/-- Concrete conversion call used by the C8 witness: rejects the second
file only. -/
def wConvert : SelectedFile → Except String ConversionResult :=
  fun f => if f.name = "b.mp4" then Except.error "Conversion failed"
    else Except.ok wOkResult

/-- A concrete result with original_size zero used by the C10 witness. -/
def wZeroSizeResult : ConversionResult :=
  { id := "2", original_filename := some "z.gif", original_url := none,
    converted_filename := none, download_url := none,
    original_size := 0, converted_size := 0, compression_ratio := 0,
    status := "failed", error := some "Conversion failed" }

/-! Theorems. -/

theorem natOfBytes_nil : natOfBytes [] = 0 := rfl

theorem foldl_base256_append (l : List Nat) (b acc : Nat) :
    (l ++ [b]).foldl (fun acc b => acc * 256 + b) acc =
      l.foldl (fun acc b => acc * 256 + b) acc * 256 + b := by
  simp [List.foldl_append]

theorem natOfBytes_bytesOfNatAux (f : Nat) :
    ∀ n, n ≤ f → natOfBytes (bytesOfNatAux f n) = n := by
  induction f with
  | zero =>
    intro n hn
    interval_cases n
    simp [bytesOfNatAux, natOfBytes]
  | succ f ih =>
    intro n hn
    match n with
    | 0 => simp [bytesOfNatAux, natOfBytes]
    | m + 1 =>
      have hq : (m + 1) / 256 ≤ f := by omega
      unfold bytesOfNatAux natOfBytes
      rw [foldl_base256_append]
      have := ih ((m + 1) / 256) hq
      unfold natOfBytes at this
      rw [this]
      omega

/-- Decoding inverts the big-endian encoding. -/
theorem natOfBytes_bytesOfNat (n : Nat) : natOfBytes (bytesOfNat n) = n :=
  natOfBytes_bytesOfNatAux n n (Nat.le_refl n)

/-- Reading a length-prefixed field recovers exactly the written payload and
leaves the trailing bytes untouched. -/
theorem readSized_withSize (p rest : List Nat) :
    readSized (withSize p ++ rest) = some (p, rest) := by
  unfold withSize readSized
  simp only [List.cons_append, List.append_assoc]
  have htake : ((bytesOfNat p.length ++ (p ++ rest)).take (bytesOfNat p.length).length)
      = bytesOfNat p.length := List.take_left _ _
  have hdrop : ((bytesOfNat p.length ++ (p ++ rest)).drop (bytesOfNat p.length).length)
      = p ++ rest := List.drop_left _ _
  simp only [htake, hdrop]
  have hlen : (bytesOfNat p.length).length = (bytesOfNat p.length).length := rfl
  simp only [dif_pos hlen, natOfBytes_bytesOfNat]
  have htake2 : (p ++ rest).take p.length = p := List.take_left _ _
  have hdrop2 : (p ++ rest).drop p.length = rest := List.drop_left _ _
  simp [htake2, hdrop2]

theorem readElement_element (id : Nat) (p rest : List Nat) :
    readElement id (element id p ++ rest) = some (p, rest) := by
  unfold element readElement
  simp [readSized_withSize]

/-- An element is never empty (it starts with its id byte). -/
theorem element_ne_nil (id : Nat) (p : List Nat) : element id p ≠ [] := by
  simp [element]

theorem readSized_withSize_nil (p : List Nat) :
    readSized (withSize p) = some (p, []) := by
  have h := readSized_withSize p []
  simpa using h

/-- Parsing one block payload recovers the timestamp, the keyframe flag,
the primary color payload, the alpha tag and the alpha payload. -/
theorem parseBlockPayload_blockPayload (c a : EncodedFrame) :
    parseBlockPayload (blockPayload c a) = some (parsedOfPair (c, a)) := by
  unfold blockPayload parseBlockPayload
  rw [readSized_withSize]
  simp only
  rw [readSized_withSize]
  simp only
  rw [readSized_withSize_nil]
  cases hk : c.keyframeFlag <;>
    simp [parsedOfPair, natOfBytes_bytesOfNat, hk]

/-- Each serialized block contributes at least one byte, so the byte length
bounds the block count: enough fuel for the block parser. -/
theorem length_le_length_serializeBlocks
    (pairs : List (EncodedFrame × EncodedFrame)) :
    pairs.length ≤ (serializeBlocks pairs).length := by
  induction pairs with
  | nil => simp [serializeBlocks]
  | cons p ps ih =>
    simp only [serializeBlocks, List.flatMap_cons, List.length_append,
      List.length_cons]
    have h1 : 1 ≤ (serializeBlock p.1 p.2).length := by
      simp [serializeBlock, element]
    have h2 : ps.length ≤ (ps.flatMap (fun pr => serializeBlock pr.1 pr.2)).length := ih
    omega

theorem parseBlocksAux_element (g : Nat) (pl rest : List Nat) :
    parseBlocksAux (g + 1) (BLOCK_ID :: (withSize pl ++ rest)) =
      (parseBlockPayload pl).bind
        (fun blk => (parseBlocksAux g rest).bind (fun more => some (blk :: more))) := by
  conv_lhs => simp only [parseBlocksAux]
  have hre : readElement BLOCK_ID (BLOCK_ID :: (withSize pl ++ rest)) = some (pl, rest) := by
    simp [readElement, readSized_withSize]
  rw [hre]
  rfl

theorem parseBlocksAux_serializeBlocks
    (pairs : List (EncodedFrame × EncodedFrame)) :
    ∀ f, pairs.length ≤ f →
      parseBlocksAux f (serializeBlocks pairs) = some (pairs.map parsedOfPair) := by
  induction pairs with
  | nil => intro f _; simp [serializeBlocks, parseBlocksAux]
  | cons p ps ih =>
    intro f hf
    match f with
    | g + 1 =>
      have hsplit : serializeBlocks (p :: ps) =
          BLOCK_ID :: (withSize (blockPayload p.1 p.2) ++ serializeBlocks ps) := by
        simp [serializeBlocks, serializeBlock, element]
      rw [hsplit, parseBlocksAux_element, parseBlockPayload_blockPayload]
      have hps : ps.length ≤ g := by simpa using Nat.le_of_succ_le_succ hf
      rw [ih g hps]
      simp

theorem parseTracksAux_trackEntry (f : Nat) :
    parseTracksAux (f + 1) trackEntryBytes = some [{ alphaFlag := true }] := by
  have hsplit : trackEntryBytes =
      TRACK_ENTRY_ID :: withSize (1 :: VP9_CODEC_BYTES) := by
    simp [trackEntryBytes, element]
  rw [hsplit]
  unfold parseTracksAux
  simp [readElement, readSized_withSize_nil, parseTrackPayload, parseTracksAux]

/-- Parsing a successfully muxed container yields exactly one alpha-flagged
track descriptor and the ordered blocks of the zipped input tracks. -/
theorem parseContainer_muxContainer (colorTrack alphaTrack : List EncodedFrame)
    (buf : List Nat) (h : muxContainer colorTrack alphaTrack = Except.ok buf) :
    parseContainer buf =
      some { tracks := [{ alphaFlag := true }],
             blocks := (colorTrack.zip alphaTrack).map parsedOfPair } := by
  unfold muxContainer at h
  by_cases hc : (colorTrack.length == alphaTrack.length
      && tracksTimestampsMatch colorTrack alphaTrack) = true
  · rw [if_pos hc] at h
    have hbuf : buf = element EBML_HEADER_ID DOCTYPE_BYTES ++
        element TRACKS_ID trackEntryBytes ++
        serializeBlocks (colorTrack.zip alphaTrack) := by
      cases h; rfl
    subst hbuf
    have h1 : readElement EBML_HEADER_ID (element EBML_HEADER_ID DOCTYPE_BYTES ++
        (element TRACKS_ID trackEntryBytes ++
          serializeBlocks (colorTrack.zip alphaTrack))) =
        some (DOCTYPE_BYTES, element TRACKS_ID trackEntryBytes ++
          serializeBlocks (colorTrack.zip alphaTrack)) :=
      readElement_element _ _ _
    have h2 : readElement TRACKS_ID (element TRACKS_ID trackEntryBytes ++
        serializeBlocks (colorTrack.zip alphaTrack)) =
        some (trackEntryBytes, serializeBlocks (colorTrack.zip alphaTrack)) :=
      readElement_element _ _ _
    have h3 : parseTracksAux trackEntryBytes.length trackEntryBytes =
        some [{ alphaFlag := true }] := parseTracksAux_trackEntry 8
    have h4 : parseBlocksAux (serializeBlocks (colorTrack.zip alphaTrack)).length
        (serializeBlocks (colorTrack.zip alphaTrack)) =
        some ((colorTrack.zip alphaTrack).map parsedOfPair) :=
      parseBlocksAux_serializeBlocks _ _ (length_le_length_serializeBlocks _)
    simp [parseContainer, List.append_assoc, h1, h2, h3, h4]
  · rw [if_neg hc] at h
    cases h

/-- C1: for every frame sequence and EncodeConfig accepted by the
Dual-Stream Encoder, the two produced EncodedTracks have identical length
and identical per-index timestamps. -/
theorem encoder_tracks_aligned (codec : List Nat → EncodeConfig → List Nat)
    (cfg : EncodeConfig) (frames : List Frame)
    (colorTrack alphaTrack : List EncodedFrame)
    (h : dualStreamEncode codec cfg frames = Except.ok (colorTrack, alphaTrack)) :
    colorTrack.length = alphaTrack.length ∧
      ∀ i (hc : i < colorTrack.length) (ha : i < alphaTrack.length),
        (colorTrack.get ⟨i, hc⟩).timestamp = (alphaTrack.get ⟨i, ha⟩).timestamp := by
  unfold dualStreamEncode at h
  split at h
  · exact absurd h (by simp)
  · split at h
    · exact absurd h (by simp)
    · dsimp only at h
      split at h
      · simp only [Except.ok.injEq, Prod.mk.injEq] at h
        obtain ⟨hcol, halp⟩ := h
        subst hcol
        subst halp
        constructor
        · simp [encodeTrack]
        · intro i hc ha
          simp [encodeTrack, List.get_eq_getElem]
      · exact absurd h (by simp)

/-- C2: for every valid pair of tracks accepted by the muxer, the output
buffer parses back into a track list of length one carrying the alpha flag,
and re-extracting each block's primary and tagged secondary payload yields
exactly the original color and alpha payload bytes. -/
theorem muxer_parse_roundtrip (colorTrack alphaTrack : List EncodedFrame)
    (buf : List Nat) (h : muxContainer colorTrack alphaTrack = Except.ok buf) :
    ∃ pc, parseContainer buf = some pc ∧
      pc.tracks.length = 1 ∧
      (∀ t ∈ pc.tracks, t.alphaFlag = true) ∧
      pc.blocks.length = colorTrack.length ∧
      ∀ i (hb : i < pc.blocks.length) (hcl : i < colorTrack.length)
        (hal : i < alphaTrack.length),
        (pc.blocks.get ⟨i, hb⟩).primary = (colorTrack.get ⟨i, hcl⟩).payloadBytes ∧
        (pc.blocks.get ⟨i, hb⟩).addId = ALPHA_BLOCK_ADD_ID ∧
        (pc.blocks.get ⟨i, hb⟩).secondary = (alphaTrack.get ⟨i, hal⟩).payloadBytes := by
  have hlen : colorTrack.length = alphaTrack.length := by
    unfold muxContainer at h
    by_cases hc : (colorTrack.length == alphaTrack.length
        && tracksTimestampsMatch colorTrack alphaTrack) = true
    · simp only [Bool.and_eq_true, beq_iff_eq] at hc
      exact hc.1
    · rw [if_neg hc] at h
      cases h
  refine ⟨_, parseContainer_muxContainer colorTrack alphaTrack buf h, ?_, ?_, ?_, ?_⟩
  · simp
  · simp
  · simp [List.length_zip, hlen]
  · intro i hb hcl hal
    simp [List.get_eq_getElem, parsedOfPair]

theorem popIndex_lt (jump : Nat) (x : EncodeConfig) (xs : List EncodeConfig) :
    min jump xs.length < (x :: xs).length := by
  simp only [List.length_cons]
  omega

theorem poppedConfig_eq_getElem (jump : Nat) (x : EncodeConfig)
    (xs : List EncodeConfig) :
    poppedConfig jump x xs = (x :: xs).get ⟨min jump xs.length, popIndex_lt jump x xs⟩ := by
  unfold poppedConfig
  rw [List.get_eq_getElem]
  exact List.getD_eq_getElem _ _ (popIndex_lt jump x xs)

theorem poppedConfig_mem (jump : Nat) (x : EncodeConfig) (xs : List EncodeConfig) :
    poppedConfig jump x xs ∈ x :: xs := by
  rw [poppedConfig_eq_getElem]
  exact (x :: xs).get_mem _ _

theorem restQueue_length (jump : Nat) (x : EncodeConfig) (xs : List EncodeConfig) :
    (restQueue jump x xs).length = xs.length := by
  unfold restQueue
  rw [List.length_eraseIdx_of_lt (popIndex_lt jump x xs)]
  simp

theorem restQueue_subset (jump : Nat) (x : EncodeConfig) (xs : List EncodeConfig) :
    restQueue jump x xs ⊆ x :: xs :=
  List.eraseIdx_subset _ _

theorem mem_restQueue_of_ne (jump : Nat) (x : EncodeConfig)
    (xs : List EncodeConfig) (c : EncodeConfig) (hc : c ∈ x :: xs)
    (hne : c ≠ poppedConfig jump x xs) : c ∈ restQueue jump x xs := by
  unfold restQueue
  rw [List.mem_eraseIdx_iff_getElem]
  obtain ⟨j, hj, rfl⟩ := List.getElem_of_mem hc
  refine ⟨j, hj, ?_, rfl⟩
  intro hji
  apply hne
  rw [poppedConfig_eq_getElem, List.get_eq_getElem]
  subst hji
  rfl

theorem restQueue_nodup (jump : Nat) (x : EncodeConfig) (xs : List EncodeConfig)
    (h : (x :: xs).Nodup) : (restQueue jump x xs).Nodup :=
  h.eraseIdx _

theorem poppedConfig_not_mem_restQueue (jump : Nat) (x : EncodeConfig)
    (xs : List EncodeConfig) (h : (x :: xs).Nodup) :
    poppedConfig jump x xs ∉ restQueue jump x xs := by
  intro hmem
  unfold restQueue at hmem
  rw [List.mem_eraseIdx_iff_getElem] at hmem
  obtain ⟨j, hj, hne, hje⟩ := hmem
  rw [poppedConfig_eq_getElem, List.get_eq_getElem] at hje
  exact hne ((List.Nodup.getElem_inj_iff h).mp hje)

/-- One-step unfolding of the search loop on a non-empty queue with fuel. -/
theorem searchGo_cons (encode : EncodeConfig → List Nat)
    (stride : Nat → Nat → Nat) (maxBytes f : Nat) (x : EncodeConfig)
    (xs : List EncodeConfig) (best : Option Candidate) (jump : Nat) :
    searchGo encode stride maxBytes (f + 1) (x :: xs) best jump =
      if (evalCandidate encode (poppedConfig jump x xs)).sizeBytes ≤ maxBytes then
        (.found (evalCandidate encode (poppedConfig jump x xs)),
          [evalCandidate encode (poppedConfig jump x xs)])
      else
        ((searchGo encode stride maxBytes f (restQueue jump x xs)
            (some (updateBest best (evalCandidate encode (poppedConfig jump x xs))))
            (stride (evalCandidate encode (poppedConfig jump x xs)).sizeBytes maxBytes)).1,
          evalCandidate encode (poppedConfig jump x xs) ::
            (searchGo encode stride maxBytes f (restQueue jump x xs)
              (some (updateBest best (evalCandidate encode (poppedConfig jump x xs))))
              (stride (evalCandidate encode (poppedConfig jump x xs)).sizeBytes maxBytes)).2) := by
  rfl

theorem betterOf_sizeBytes_le_left (b c : Candidate) :
    (betterOf b c).sizeBytes ≤ b.sizeBytes := by
  unfold betterOf
  split <;> omega

theorem betterOf_sizeBytes_le_right (b c : Candidate) :
    (betterOf b c).sizeBytes ≤ c.sizeBytes := by
  unfold betterOf
  split <;> omega

theorem betterOf_eq_or (b c : Candidate) : betterOf b c = b ∨ betterOf b c = c := by
  unfold betterOf
  split
  · right; rfl
  · left; rfl

theorem foldl_betterOf_mem (l : List Candidate) :
    ∀ b, l.foldl betterOf b ∈ b :: l := by
  induction l with
  | nil => intro b; simp
  | cons c cs ih =>
    intro b
    rw [List.foldl_cons]
    have hm := ih (betterOf b c)
    rcases List.mem_cons.mp hm with h | h
    · rw [h]
      rcases betterOf_eq_or b c with he | he <;> rw [he]
      · exact List.mem_cons_self _ _
      · exact List.mem_cons_of_mem _ (List.mem_cons_self _ _)
    · exact List.mem_cons_of_mem _ (List.mem_cons_of_mem _ h)

theorem foldl_betterOf_le_init (l : List Candidate) :
    ∀ b, (l.foldl betterOf b).sizeBytes ≤ b.sizeBytes := by
  induction l with
  | nil => intro b; simp
  | cons c cs ih =>
    intro b
    rw [List.foldl_cons]
    exact Nat.le_trans (ih (betterOf b c)) (betterOf_sizeBytes_le_left b c)

theorem foldl_betterOf_le_mem (l : List Candidate) :
    ∀ b c, c ∈ l → (l.foldl betterOf b).sizeBytes ≤ c.sizeBytes := by
  induction l with
  | nil => intro b c hc; cases hc
  | cons d ds ih =>
    intro b c hc
    rw [List.foldl_cons]
    rcases List.mem_cons.mp hc with h | h
    · subst h
      exact Nat.le_trans (foldl_betterOf_le_init ds (betterOf b c))
        (betterOf_sizeBytes_le_right b c)
    · exact ih (betterOf b d) c h

/-- If some config in the queue fits the budget, the loop ends in Found
with a candidate that fits (the fitting config stays reachable because
jumped-over configs remain in the queue). -/
theorem searchGo_finds_fit (encode : EncodeConfig → List Nat)
    (stride : Nat → Nat → Nat) (maxBytes : Nat) :
    ∀ f (queue : List EncodeConfig) (best : Option Candidate) (jump : Nat),
      queue.length ≤ f →
      (∃ cfg ∈ queue, (encode cfg).length ≤ maxBytes) →
      ∃ c, (searchGo encode stride maxBytes f queue best jump).1 = .found c ∧
        c.sizeBytes ≤ maxBytes := by
  intro f
  induction f with
  | zero =>
    intro queue best jump hle hex
    match queue with
    | [] =>
      obtain ⟨cfg, hm, _⟩ := hex
      cases hm
    | x :: xs => simp at hle
  | succ f ih =>
    intro queue best jump hle hex
    match queue with
    | [] =>
      obtain ⟨cfg, hm, _⟩ := hex
      cases hm
    | x :: xs =>
      rw [searchGo_cons]
      by_cases hfit :
          (evalCandidate encode (poppedConfig jump x xs)).sizeBytes ≤ maxBytes
      · rw [if_pos hfit]
        exact ⟨_, rfl, hfit⟩
      · rw [if_neg hfit]
        obtain ⟨cfg, hm, hcf⟩ := hex
        have hne : cfg ≠ poppedConfig jump x xs := by
          intro he
          apply hfit
          rw [← he]
          exact hcf
        have hm' : cfg ∈ restQueue jump x xs := mem_restQueue_of_ne _ _ _ _ hm hne
        have hlen : (restQueue jump x xs).length ≤ f := by
          rw [restQueue_length]
          simpa using Nat.le_of_succ_le_succ hle
        exact ih (restQueue jump x xs) _ _ hlen ⟨cfg, hm', hcf⟩

/-- When no evaluated candidate fits, the loop reports Exhausted carrying
the best-so-far fold of the evaluated candidates over the incoming best. -/
theorem searchGo_exhausted_eq (encode : EncodeConfig → List Nat)
    (stride : Nat → Nat → Nat) (maxBytes : Nat) :
    ∀ f (queue : List EncodeConfig) (best : Option Candidate) (jump : Nat),
      (∀ c ∈ (searchGo encode stride maxBytes f queue best jump).2,
        maxBytes < c.sizeBytes) →
      (searchGo encode stride maxBytes f queue best jump).1 =
        match best, (searchGo encode stride maxBytes f queue best jump).2 with
        | none, [] => .noCandidates
        | none, e :: es => .exhausted (es.foldl betterOf e)
        | some b, es => .exhausted (es.foldl betterOf b) := by
  intro f
  induction f with
  | zero =>
    intro queue best jump _
    match queue, best with
    | [], none => rfl
    | [], some b => rfl
    | _ :: _, none => rfl
    | _ :: _, some b => rfl
  | succ f ih =>
    intro queue best jump h
    match queue with
    | [] =>
      match best with
      | none => rfl
      | some b => rfl
    | x :: xs =>
      have hfit :
          ¬ (evalCandidate encode (poppedConfig jump x xs)).sizeBytes ≤ maxBytes := by
        intro hc
        have hmem : evalCandidate encode (poppedConfig jump x xs) ∈
            (searchGo encode stride maxBytes (f + 1) (x :: xs) best jump).2 := by
          rw [searchGo_cons, if_pos hc]
          exact List.mem_singleton_self _
        have := h _ hmem
        omega
      have htr :
          (searchGo encode stride maxBytes (f + 1) (x :: xs) best jump).2 =
            evalCandidate encode (poppedConfig jump x xs) ::
              (searchGo encode stride maxBytes f (restQueue jump x xs)
                (some (updateBest best (evalCandidate encode (poppedConfig jump x xs))))
                (stride (evalCandidate encode (poppedConfig jump x xs)).sizeBytes
                  maxBytes)).2 := by
        rw [searchGo_cons, if_neg hfit]
      have hout :
          (searchGo encode stride maxBytes (f + 1) (x :: xs) best jump).1 =
            (searchGo encode stride maxBytes f (restQueue jump x xs)
              (some (updateBest best (evalCandidate encode (poppedConfig jump x xs))))
              (stride (evalCandidate encode (poppedConfig jump x xs)).sizeBytes
                maxBytes)).1 := by
        rw [searchGo_cons, if_neg hfit]
      have hrec := ih (restQueue jump x xs)
        (some (updateBest best (evalCandidate encode (poppedConfig jump x xs))))
        (stride (evalCandidate encode (poppedConfig jump x xs)).sizeBytes maxBytes)
        (by
          intro c hc
          apply h
          rw [htr]
          exact List.mem_cons_of_mem _ hc)
      rw [hout, hrec, htr]
      match best with
      | none => rfl
      | some b => rfl

/-- On a non-empty queue with positive fuel, at least one candidate is
evaluated. -/
theorem searchGo_trace_ne_nil (encode : EncodeConfig → List Nat)
    (stride : Nat → Nat → Nat) (maxBytes f : Nat) (x : EncodeConfig)
    (xs : List EncodeConfig) (best : Option Candidate) (jump : Nat) :
    (searchGo encode stride maxBytes (f + 1) (x :: xs) best jump).2 ≠ [] := by
  rw [searchGo_cons]
  split <;> simp

theorem evalCandidate_config (encode : EncodeConfig → List Nat)
    (cfg : EncodeConfig) : (evalCandidate encode cfg).config = cfg := rfl

/-- Evaluated configs come from the queue, each pop removes its config, and
with a duplicate-free queue no config is evaluated twice; the number of
evaluations is bounded by the queue length. -/
theorem searchGo_no_revisit (encode : EncodeConfig → List Nat)
    (stride : Nat → Nat → Nat) (maxBytes : Nat) :
    ∀ f (queue : List EncodeConfig) (best : Option Candidate) (jump : Nat),
      queue.Nodup →
      ((searchGo encode stride maxBytes f queue best jump).2.map
        Candidate.config).Nodup ∧
      (∀ c ∈ (searchGo encode stride maxBytes f queue best jump).2,
        c.config ∈ queue) ∧
      (searchGo encode stride maxBytes f queue best jump).2.length ≤
        queue.length := by
  intro f
  induction f with
  | zero =>
    intro queue best jump hnd
    match queue, best with
    | [], none => simp [searchGo]
    | [], some b => simp [searchGo]
    | x :: xs, none => simp [searchGo]
    | x :: xs, some b => simp [searchGo]
  | succ f ih =>
    intro queue best jump hnd
    match queue with
    | [] =>
      match best with
      | none => simp [searchGo]
      | some b => simp [searchGo]
    | x :: xs =>
      rw [searchGo_cons]
      by_cases hfit :
          (evalCandidate encode (poppedConfig jump x xs)).sizeBytes ≤ maxBytes
      · rw [if_pos hfit]
        refine ⟨by simp, ?_, by simp⟩
        intro c hc
        rw [List.mem_singleton] at hc
        subst hc
        exact poppedConfig_mem jump x xs
      · rw [if_neg hfit]
        have hnd' := restQueue_nodup jump x xs hnd
        obtain ⟨hih1, hih2, hih3⟩ := ih (restQueue jump x xs)
          (some (updateBest best (evalCandidate encode (poppedConfig jump x xs))))
          (stride (evalCandidate encode (poppedConfig jump x xs)).sizeBytes maxBytes)
          hnd'
        refine ⟨?_, ?_, ?_⟩
        · simp only [List.map_cons]
          rw [List.nodup_cons]
          refine ⟨?_, hih1⟩
          intro hmem
          rw [List.mem_map] at hmem
          obtain ⟨c, hc, hce⟩ := hmem
          have hcr : c.config ∈ restQueue jump x xs := hih2 c hc
          rw [hce] at hcr
          exact poppedConfig_not_mem_restQueue jump x xs hnd hcr
        · intro c hc
          rcases List.mem_cons.mp hc with h | h
          · subst h
            exact poppedConfig_mem jump x xs
          · exact restQueue_subset jump x xs (hih2 c h)
        · simp only [List.length_cons]
          rw [restQueue_length] at hih3
          omega

/-- C4: whenever at least one configuration in the full config space would
produce a container that fits the byte budget, the Size-Constrained Search
returns a Found candidate whose sizeBytes is within budget.  The budget
comparison uses the exact byte count of the muxed container. -/
theorem search_within_budget_when_possible (encode : EncodeConfig → List Nat)
    (stride : Nat → Nat → Nat) (maxBytes : Nat) (queue : List EncodeConfig)
    (hex : ∃ cfg ∈ queue, (encode cfg).length ≤ maxBytes) :
    ∃ c, searchOutcome encode stride maxBytes queue = .found c ∧
      c.sizeBytes ≤ maxBytes :=
  searchGo_finds_fit encode stride maxBytes queue.length queue none 0
    (Nat.le_refl _) hex

/-- C5: in a run over a non-empty config space where no evaluated candidate
fits the budget, the search ends in the Exhausted state with BudgetNotMet
flagged (a result, not a hard failure), and the returned candidate is an
evaluated candidate whose sizeBytes is minimal across all evaluated
candidates. -/
theorem search_exhausted_returns_min (encode : EncodeConfig → List Nat)
    (stride : Nat → Nat → Nat) (maxBytes : Nat) (queue : List EncodeConfig)
    (hq : queue ≠ [])
    (h : ∀ c ∈ evaluatedCandidates encode stride maxBytes queue,
      maxBytes < c.sizeBytes) :
    ∃ b, searchOutcome encode stride maxBytes queue = .exhausted b ∧
      budgetNotMet (searchOutcome encode stride maxBytes queue) = true ∧
      b ∈ evaluatedCandidates encode stride maxBytes queue ∧
      ∀ c ∈ evaluatedCandidates encode stride maxBytes queue,
        b.sizeBytes ≤ c.sizeBytes := by
  have htr : evaluatedCandidates encode stride maxBytes queue ≠ [] := by
    match queue, hq with
    | x :: xs, _ =>
      show (searchGo encode stride maxBytes (x :: xs).length (x :: xs) none 0).2 ≠ []
      rw [List.length_cons]
      exact searchGo_trace_ne_nil encode stride maxBytes xs.length x xs none 0
  obtain ⟨e, es, hes⟩ := List.exists_cons_of_ne_nil htr
  have hes' : (searchGo encode stride maxBytes queue.length queue none 0).2 =
      e :: es := hes
  have heq := searchGo_exhausted_eq encode stride maxBytes queue.length queue
    none 0 h
  rw [hes'] at heq
  refine ⟨es.foldl betterOf e, heq, ?_, ?_, ?_⟩
  · have hb : searchOutcome encode stride maxBytes queue =
        SearchOutcome.exhausted (es.foldl betterOf e) := heq
    rw [hb]
    rfl
  · have hmem := foldl_betterOf_mem es e
    rw [hes]
    exact hmem
  · intro c hc
    rw [hes] at hc
    rcases List.mem_cons.mp hc with hh | hh
    · rw [hh]
      exact foldl_betterOf_le_init es e
    · exact foldl_betterOf_le_mem es e c hh

/-- C6: the search terminates — it performs at most queue.length candidate
evaluations for every finite config space — and, for a duplicate-free
config queue, no popped config is ever evaluated a second time, for every
adaptive-jump stride function; every evaluated config came from the
queue. -/
theorem search_terminates_no_revisit (encode : EncodeConfig → List Nat)
    (stride : Nat → Nat → Nat) (maxBytes : Nat) (queue : List EncodeConfig)
    (hnd : queue.Nodup) :
    ((evaluatedCandidates encode stride maxBytes queue).map
      Candidate.config).Nodup ∧
    (∀ c ∈ evaluatedCandidates encode stride maxBytes queue,
      c.config ∈ queue) ∧
    (evaluatedCandidates encode stride maxBytes queue).length ≤ queue.length :=
  searchGo_no_revisit encode stride maxBytes queue.length queue none 0 hnd

/-- C3: for every input pair with mismatched track lengths, the Container
Muxer signals MuxInvariantViolation and produces no output buffer. -/
theorem muxer_rejects_length_mismatch (colorTrack alphaTrack : List EncodedFrame)
    (h : colorTrack.length ≠ alphaTrack.length) :
    muxContainer colorTrack alphaTrack = Except.error MuxError.muxInvariantViolation := by
  unfold muxContainer
  have hc : (colorTrack.length == alphaTrack.length) = false := by
    simp [h]
  simp [hc]

/-- C7: encoding is deterministic — two runs of the Dual-Stream Encoder and
of the full encoder-plus-muxer pipeline on the identical frames and config
yield byte-identical EncodedTracks and a byte-identical muxed container. -/
theorem pipeline_deterministic (codec : List Nat → EncodeConfig → List Nat)
    (cfg : EncodeConfig) (frames : List Frame) :
    dualStreamEncode codec cfg frames = dualStreamEncode codec cfg frames ∧
    convertPipeline codec cfg frames = convertPipeline codec cfg frames :=
  ⟨rfl, rfl⟩

/-- Witness for C1 at the concrete three-frame input: the two produced
tracks have equal length. -/
theorem encoder_tracks_aligned_witness :
    wEncodedPair.1.length = wEncodedPair.2.length :=
  (encoder_tracks_aligned wCodec wCfg wFrames wEncodedPair.1 wEncodedPair.2
    (by rfl)).1

/-- Witness for C2 at the concrete muxed buffer: the re-parse succeeds. -/
theorem muxer_parse_roundtrip_witness :
    (parseContainer wBuf).isSome = true := by
  obtain ⟨pc, hpc, -, -, -, -⟩ :=
    muxer_parse_roundtrip wEncodedPair.1 wEncodedPair.2 wBuf (by rfl)
  rw [hpc]
  rfl

/-- Witness for C3 at tracks of length ten and nine (scenario C). -/
theorem muxer_rejects_length_mismatch_witness :
    muxContainer wColorTen wAlphaNine = Except.error MuxError.muxInvariantViolation :=
  muxer_rejects_length_mismatch wColorTen wAlphaNine (by decide)

/-- Witness for C4 at a concrete config space where one config fits a
60-byte budget: the outcome is not flagged BudgetNotMet. -/
theorem search_within_budget_witness :
    budgetNotMet (searchOutcome wEncode wStride 60 wQueue) = false := by
  obtain ⟨c, hc, -⟩ :=
    search_within_budget_when_possible wEncode wStride 60 wQueue (by decide)
  rw [hc]
  rfl

/-- Witness for C5 at a 10-byte budget nothing fits: the outcome is flagged
BudgetNotMet. -/
theorem search_exhausted_witness :
    budgetNotMet (searchOutcome wEncode wStride 10 wQueue) = true := by
  obtain ⟨b, -, hflag, -, -⟩ :=
    search_exhausted_returns_min wEncode wStride 10 wQueue (by decide) (by decide)
  exact hflag

/-- Witness for C6 at the concrete duplicate-free config queue: the number
of evaluations is bounded by the queue length. -/
theorem search_no_revisit_witness :
    (evaluatedCandidates wEncode wStride 10 wQueue).length ≤ wQueue.length := by
  obtain ⟨-, -, hlen⟩ :=
    search_terminates_no_revisit wEncode wStride 10 wQueue (by decide)
  exact hlen

/-- C8: a conversion failure for one file does not abort the batch: the
results list has exactly one entry per input file, the i-th entry is the
outcome of attempting the i-th file (so every remaining file is still
attempted), and a rejected file yields an entry with status failed,
converted_size 0, the file's name and the caught error message (with the
code's fallback for an empty message), while a successful file yields its
result unchanged. -/
theorem batch_convert_isolates_failures
    (convert : SelectedFile → Except String ConversionResult)
    (files : List SelectedFile) :
    (handleConvert convert files).length = files.length ∧
    ∀ i (hi : i < files.length) (hr : i < (handleConvert convert files).length),
      ((handleConvert convert files).get ⟨i, hr⟩ =
        convertOneEntry (files.get ⟨i, hi⟩) (convert (files.get ⟨i, hi⟩))) ∧
      (∀ r, convert (files.get ⟨i, hi⟩) = Except.ok r →
        (handleConvert convert files).get ⟨i, hr⟩ = r) ∧
      ∀ msg, convert (files.get ⟨i, hi⟩) = Except.error msg →
        ((handleConvert convert files).get ⟨i, hr⟩).status = "failed" ∧
        ((handleConvert convert files).get ⟨i, hr⟩).converted_size = 0 ∧
        ((handleConvert convert files).get ⟨i, hr⟩).original_filename =
          some (files.get ⟨i, hi⟩).name ∧
        ((handleConvert convert files).get ⟨i, hr⟩).error =
          some (if msg = "" then "Unknown error" else msg) := by
  constructor
  · simp [handleConvert]
  · intro i hi hr
    have hget : (handleConvert convert files).get ⟨i, hr⟩ =
        convertOneEntry (files.get ⟨i, hi⟩) (convert (files.get ⟨i, hi⟩)) := by
      simp [handleConvert, List.get_eq_getElem]
    refine ⟨hget, ?_, ?_⟩
    · intro r hok
      rw [hget, hok]
      rfl
    · intro msg hmsg
      rw [hget, hmsg]
      exact ⟨rfl, rfl, rfl, rfl⟩

/-- Witness for C8 at three concrete files where the second rejects: one
result entry per input file. -/
theorem batch_convert_isolates_failures_witness :
    (handleConvert wConvert wFiles).length = wFiles.length :=
  (batch_convert_isolates_failures wConvert wFiles).1

/-- C9 counterexample: for a not-ok response whose body carries a present
but empty detail field, convertFile throws 'Conversion failed' rather than
the detail value, refuting the message clause of the claim as stated. -/
theorem convertFile_detail_counterexample :
    wEmptyDetailResp.ok = false ∧
    wEmptyDetailResp.bodyDetail = some "" ∧
    convertFile wEmptyDetailResp = Except.error "Conversion failed" ∧
    convertFile wEmptyDetailResp ≠ Except.error "" := by
  refine ⟨rfl, rfl, rfl, ?_⟩
  intro hcontra
  have h1 : convertFile wEmptyDetailResp = Except.error "Conversion failed" := rfl
  rw [h1] at hcontra
  injection hcontra with h2
  exact absurd h2 (by decide)

/-- C9 (amended): convertFile returns the parsed body exactly when the
response is ok and throws exactly when it is not; the thrown message
equals the detail field when it is present and non-empty (truthy), and the
string 'Conversion failed' when the detail is absent, null or empty. -/
theorem convertFile_raises_iff (resp : FetchResponse) :
    (resp.ok = true → convertFile resp = Except.ok resp.bodyResult) ∧
    (resp.ok = false → ∀ d, resp.bodyDetail = some d → d ≠ "" →
      convertFile resp = Except.error d) ∧
    (resp.ok = false → (resp.bodyDetail = none ∨ resp.bodyDetail = some "") →
      convertFile resp = Except.error "Conversion failed") ∧
    ((∃ r, convertFile resp = Except.ok r) ↔ resp.ok = true) := by
  refine ⟨?_, ?_, ?_, ?_⟩
  · intro hok
    simp [convertFile, hok]
  · intro hok d hd hne
    simp [convertFile, hok, hd, hne]
  · intro hok hd
    rcases hd with hd | hd <;> simp [convertFile, hok, hd]
  · constructor
    · rintro ⟨r, hr⟩
      by_cases hok : resp.ok
      · exact hok
      · exfalso
        unfold convertFile at hr
        rw [if_neg hok] at hr
        match hdet : resp.bodyDetail with
        | some d =>
          rw [hdet] at hr
          by_cases hde : d = "" <;> simp [hde] at hr
        | none =>
          rw [hdet] at hr
          cases hr
    · intro hok
      exact ⟨resp.bodyResult, by simp [convertFile, hok]⟩

/-- Witness for C9 at a concrete ok response: the parsed body is returned. -/
theorem convertFile_raises_iff_witness :
    convertFile wOkResp = Except.ok wOkResult :=
  (convertFile_raises_iff wOkResp).1 rfl

/-- C10: the displayed Saved percentage never divides by zero: the division
is evaluated only under the guard original_size > 0, where the cell shows
the formula's value, and for every result with original_size zero the
rendered value is the literal 0. -/
theorem saved_percent_guard (r : ConversionResult) :
    (r.original_size = 0 → savedPercent r = 0) ∧
    (0 < r.original_size →
      savedPercent r =
        (1 - (r.converted_size : ℚ) / (r.original_size : ℚ)) * 100) := by
  constructor
  · intro h
    simp [savedPercent, h]
  · intro h
    simp [savedPercent, h]

/-- Witness for C10 at a concrete zero-sized original: the rendered value
is 0. -/
theorem saved_percent_guard_witness : savedPercent wZeroSizeResult = 0 :=
  (saved_percent_guard wZeroSizeResult).1 rfl
